import Mathlib

set_option maxHeartbeats 1000000

/-!
Verification of the KeyMagic 3 repository tooling against its design
specification.

The development shallowly embeds the Python sources:
  - src/kms2km2/scripts/debug_diff.py (opcode decoder and KM2 container walk),
  - src/scripts/update-version.py (Cargo.toml version rewriting),
  - src/scripts/generate-updates-json.py (architecture normalisation),
and a spec-derived model of the keymagic-core matching engine and its foreign
boundary, whose Rust implementation is exercised by
src/keymagic-core/tests/test_ffi.py but is not itself part of the sources.

Bytes are Nat values below 256; wide text units are Nat values below 65536;
Python exceptions are modelled by Option, none standing for an uncaught error.
-/

/-- Little-endian 16-bit value assembled from two bytes, as read by
struct.unpack with format <H throughout debug_diff.py. -/
def le16 (b0 b1 : Nat) : Nat := b0 + 256 * b1

/-- Little-endian byte pair encoding of a 16-bit value, the layout written by
struct.pack with format <H (the inverse of le16 on values below 0x10000). -/
def u16le (n : Nat) : List Nat := [n % 256, n / 256]

/-- Uppercase hexadecimal digit character for a value below 16. -/
def hexDigit (n : Nat) : Char :=
  if n < 10 then Char.ofNat (48 + n) else Char.ofNat (55 + n)

/-- Python format 04X applied to a value below 0x10000: exactly four uppercase
hexadecimal digits.  All values formatted this way in debug_diff.py are 16-bit. -/
def hex4 (n : Nat) : String :=
  String.mk [hexDigit (n / 4096 % 16), hexDigit (n / 256 % 16),
             hexDigit (n / 16 % 16), hexDigit (n % 16)]

/-- Character rendering of one text unit in decode_opcodes: chr for code points
below 128, otherwise U+XXXX. -/
def charRepr (ch : Nat) : String :=
  if ch < 128 then String.singleton (Char.ofNat ch) else "U+" ++ hex4 ch

/-- Translated from the inner character loop of decode_opcodes in
src/kms2km2/scripts/debug_diff.py: up to strLen 2-byte units are read; the
guard i < len(data) makes an iteration past the end read nothing, while a
single trailing byte makes struct.unpack raise (modelled as none).  Returns
the rendered characters and the unread remainder. -/
def readChars : Nat → List Nat → Option (List String × List Nat)
  | 0, rest => some ([], rest)
  | _ + 1, [] => some ([], [])
  | _ + 1, [_] => none
  | n + 1, b0 :: b1 :: rest =>
    match readChars n rest with
    | none => none
    | some (cs, r) => some (charRepr (le16 b0 b1) :: cs, r)

/-- Translated from the outer while loop of decode_opcodes in
src/kms2km2/scripts/debug_diff.py.  Single-operand tags share one shape in the
elif chain; this table holds their token renderings (decimal index for VAR,
REF, VK, ANYOF, NANYOF and SWITCH, format 04X for MOD), and none for a tag
that is not a single-operand tag. -/
def opTok (op : Nat) : Option (Nat → String) :=
  if op = 0xF1 then some (fun i => "VAR(" ++ Nat.repr i ++ ")")
  else if op = 0xF2 then some (fun i => "REF(" ++ Nat.repr i ++ ")")
  else if op = 0xF3 then some (fun i => "VK(" ++ Nat.repr i ++ ")")
  else if op = 0xF4 then some (fun m => "MOD(" ++ hex4 m ++ ")")
  else if op = 0xF5 then some (fun i => "ANYOF(" ++ Nat.repr i ++ ")")
  else if op = 0xF7 then some (fun i => "NANYOF(" ++ Nat.repr i ++ ")")
  else if op = 0xF9 then some (fun i => "SWITCH(" ++ Nat.repr i ++ ")")
  else none

/-- Translated from the outer while loop of decode_opcodes.  The fuel argument
only bounds the number of loop iterations: every iteration consumes at least
two bytes, so fuel equal to the byte count always suffices, and
decodeLoop_fuel_eq below shows the result does not depend on the exact fuel
once sufficient.  none models an uncaught struct.error: reading a 16-bit field
when exactly one byte remains.  A single-operand tag followed by no operand at
all appends nothing (the Python guard i < len(data) skips the append); a
STRING tag at the very end leaves an unclosed token, exactly as the source. -/
def decodeLoop : Nat → List Nat → Option (List String)
  | _, [] => some []
  | 0, _ :: _ => none
  | _ + 1, [_] => none
  | fuel + 1, b0 :: b1 :: rest =>
    if le16 b0 b1 = 0xF0 then
      match rest with
      | [] => some ["STRING("]
      | [_] => none
      | c0 :: c1 :: r2 =>
        match readChars (le16 c0 c1) r2 with
        | none => none
        | some (cs, r3) =>
          match decodeLoop fuel r3 with
          | none => none
          | some toks => some (("STRING(" ++ String.join cs ++ ")") :: toks)
    else if le16 b0 b1 = 0xF6 then
      (decodeLoop fuel rest).map (fun toks => "AND" :: toks)
    else if le16 b0 b1 = 0xF8 then
      (decodeLoop fuel rest).map (fun toks => "ANY" :: toks)
    else
      match opTok (le16 b0 b1) with
      | some tokOf =>
        match rest with
        | [] => some []
        | [_] => none
        | c0 :: c1 :: r2 =>
          (decodeLoop fuel r2).map (fun toks => tokOf (le16 c0 c1) :: toks)
      | none =>
        (decodeLoop fuel rest).map
          (fun toks => ("UNKNOWN(" ++ hex4 (le16 b0 b1) ++ ")") :: toks)

/-- Token list produced by decode_opcodes before the final space join. -/
def decodeTokens (data : List Nat) : Option (List String) :=
  decodeLoop data.length data

/-- Translated from decode_opcodes in src/kms2km2/scripts/debug_diff.py: the
token list joined with single spaces; none models an uncaught struct.error. -/
def decode_opcodes (data : List Nat) : Option String :=
  (decodeTokens data).map (fun toks => String.intercalate " " toks)

/-- Successive little-endian 16-bit units of a byte stream (the 2-byte wide
text units of the format); a dangling final byte is dropped. -/
def pairsLE : List Nat → List Nat
  | b0 :: b1 :: rest => le16 b0 b1 :: pairsLE rest
  | _ => []

/-- Opcode tags known to decode_opcodes; any other tag renders as UNKNOWN. -/
def knownTags : List Nat :=
  [0xF0, 0xF1, 0xF2, 0xF3, 0xF4, 0xF5, 0xF6, 0xF7, 0xF8, 0xF9]

theorem readChars_length_le :
    ∀ (n : Nat) (l : List Nat) (cs : List String) (r : List Nat),
      readChars n l = some (cs, r) → r.length ≤ l.length := by
  intro n
  induction n with
  | zero =>
    intro l cs r h
    simp [readChars] at h
    rw [h.2]
  | succ n ih =>
    intro l cs r h
    match l with
    | [] => simp [readChars] at h; simp [h.2]
    | [_] => simp [readChars] at h
    | b0 :: b1 :: rest =>
      simp only [readChars] at h
      match hrc : readChars n rest with
      | none => rw [hrc] at h; simp at h
      | some (cs1, r1) =>
        rw [hrc] at h
        simp at h
        have := ih rest cs1 r1 hrc
        simp [← h.2]
        omega

theorem readChars_even :
    ∀ (n : Nat) (l : List Nat), l.length % 2 = 0 →
      ∃ cs r, readChars n l = some (cs, r) ∧ r.length % 2 = 0 := by
  intro n
  induction n with
  | zero => intro l h; exact ⟨[], l, rfl, h⟩
  | succ n ih =>
    intro l h
    match l with
    | [] => exact ⟨[], [], rfl, rfl⟩
    | [_] => simp at h
    | b0 :: b1 :: rest =>
      have hrest : rest.length % 2 = 0 := by simp at h; omega
      obtain ⟨cs, r, hrc, hr⟩ := ih rest hrest
      refine ⟨charRepr (le16 b0 b1) :: cs, r, ?_, hr⟩
      simp only [readChars, hrc]

theorem readChars_exact :
    ∀ (n : Nat) (units rest : List Nat), units.length = 2 * n →
      readChars n (units ++ rest) = some ((pairsLE units).map charRepr, rest) := by
  intro n
  induction n with
  | zero =>
    intro units rest h
    have : units = [] := List.length_eq_zero.mp (by omega)
    subst this
    simp [readChars, pairsLE]
  | succ n ih =>
    intro units rest h
    match units with
    | [] => simp at h
    | [_] => simp at h; omega
    | b0 :: b1 :: u =>
      have hu : u.length = 2 * n := by simp at h; omega
      have hih := ih u rest hu
      simp only [List.cons_append, readChars, List.append_eq, hih, pairsLE,
        List.map_cons]

theorem decodeLoop_nil (fuel : Nat) : decodeLoop fuel [] = some [] := by
  cases fuel <;> rfl

theorem decodeLoop_single (fuel : Nat) (b : Nat) : decodeLoop fuel [b] = none := by
  cases fuel <;> rfl

theorem decodeLoop_fuel_eq :
    ∀ (f g : Nat) (data : List Nat), data.length ≤ f → data.length ≤ g →
      decodeLoop f data = decodeLoop g data := by
  intro f
  induction f with
  | zero =>
    intro g data hf _
    have : data = [] := List.length_eq_zero.mp (by omega)
    subst this
    rw [decodeLoop_nil, decodeLoop_nil]
  | succ f ih =>
    intro g data hf hg
    match data with
    | [] => rw [decodeLoop_nil, decodeLoop_nil]
    | [b] => rw [decodeLoop_single, decodeLoop_single]
    | b0 :: b1 :: rest =>
      match g with
      | 0 => simp at hg
      | g + 1 =>
        by_cases h0 : le16 b0 b1 = 0xF0
        · match rest with
          | [] => simp only [decodeLoop, if_pos h0]
          | [_] => simp only [decodeLoop, if_pos h0]
          | c0 :: c1 :: r2 =>
            match hrc : readChars (le16 c0 c1) r2 with
            | none => simp only [decodeLoop, if_pos h0, hrc]
            | some (cs, r3) =>
              have hr3 : r3.length ≤ r2.length := readChars_length_le _ _ _ _ hrc
              have hmain : decodeLoop f r3 = decodeLoop g r3 :=
                ih g r3 (by simp at hf; omega) (by simp at hg; omega)
              simp only [decodeLoop, if_pos h0, hrc, hmain]
        · by_cases h6 : le16 b0 b1 = 0xF6
          · have hmain : decodeLoop f rest = decodeLoop g rest :=
              ih g rest (by simp at hf; omega) (by simp at hg; omega)
            simp only [decodeLoop, if_neg h0, if_pos h6, hmain]
          · by_cases h8 : le16 b0 b1 = 0xF8
            · have hmain : decodeLoop f rest = decodeLoop g rest :=
                ih g rest (by simp at hf; omega) (by simp at hg; omega)
              simp only [decodeLoop, if_neg h0, if_neg h6, if_pos h8, hmain]
            · match hop : opTok (le16 b0 b1) with
              | some tokOf =>
                match rest with
                | [] => simp only [decodeLoop, if_neg h0, if_neg h6, if_neg h8, hop]
                | [_] => simp only [decodeLoop, if_neg h0, if_neg h6, if_neg h8, hop]
                | c0 :: c1 :: r2 =>
                  have hmain : decodeLoop f r2 = decodeLoop g r2 :=
                    ih g r2 (by simp at hf; omega) (by simp at hg; omega)
                  simp only [decodeLoop, if_neg h0, if_neg h6, if_neg h8, hop, hmain]
              | none =>
                have hmain : decodeLoop f rest = decodeLoop g rest :=
                  ih g rest (by simp at hf; omega) (by simp at hg; omega)
                simp only [decodeLoop, if_neg h0, if_neg h6, if_neg h8, hop, hmain]

theorem decodeLoop_isSome :
    ∀ (f : Nat) (data : List Nat), data.length ≤ f → data.length % 2 = 0 →
      (decodeLoop f data).isSome := by
  intro f
  induction f with
  | zero =>
    intro data hf _
    have : data = [] := List.length_eq_zero.mp (by omega)
    subst this
    rw [decodeLoop_nil]; rfl
  | succ f ih =>
    intro data hf hpar
    match data with
    | [] => rw [decodeLoop_nil]; rfl
    | [b] => simp at hpar
    | b0 :: b1 :: rest =>
      have hrpar : rest.length % 2 = 0 := by simp at hpar; omega
      by_cases h0 : le16 b0 b1 = 0xF0
      · match rest with
        | [] => simp [decodeLoop, if_pos h0]
        | [x] => simp at hrpar
        | c0 :: c1 :: r2 =>
          have hr2par : r2.length % 2 = 0 := by simp at hpar; omega
          obtain ⟨cs, r3, hrc, hr3par⟩ := readChars_even (le16 c0 c1) r2 hr2par
          have hr3le : r3.length ≤ r2.length := readChars_length_le _ _ _ _ hrc
          have hrec := ih r3 (by simp at hf; omega) hr3par
          match hdl : decodeLoop f r3 with
          | none => rw [hdl] at hrec; simp at hrec
          | some toks => simp [decodeLoop, if_pos h0, hrc, hdl]
      · by_cases h6 : le16 b0 b1 = 0xF6
        · have hrec := ih rest (by simp at hf; omega) hrpar
          match hdl : decodeLoop f rest with
          | none => rw [hdl] at hrec; simp at hrec
          | some toks => simp [decodeLoop, if_neg h0, if_pos h6, hdl]
        · by_cases h8 : le16 b0 b1 = 0xF8
          · have hrec := ih rest (by simp at hf; omega) hrpar
            match hdl : decodeLoop f rest with
            | none => rw [hdl] at hrec; simp at hrec
            | some toks => simp [decodeLoop, if_neg h0, if_neg h6, if_pos h8, hdl]
          · match hop : opTok (le16 b0 b1) with
            | some tokOf =>
              match rest with
              | [] => simp [decodeLoop, if_neg h0, if_neg h6, if_neg h8, hop]
              | [x] => simp at hrpar
              | c0 :: c1 :: r2 =>
                have hr2par : r2.length % 2 = 0 := by simp at hpar; omega
                have hrec := ih r2 (by simp at hf; omega) hr2par
                match hdl : decodeLoop f r2 with
                | none => rw [hdl] at hrec; simp at hrec
                | some toks =>
                  simp [decodeLoop, if_neg h0, if_neg h6, if_neg h8, hop, hdl]
            | none =>
              have hrec := ih rest (by simp at hf; omega) hrpar
              match hdl : decodeLoop f rest with
              | none => rw [hdl] at hrec; simp at hrec
              | some toks =>
                simp [decodeLoop, if_neg h0, if_neg h6, if_neg h8, hop, hdl]

theorem decodeTokens_operand_step (tag idx : Nat) (tokOf : Nat → String)
    (hop : opTok tag = some tokOf) (rest : List Nat) :
    decodeTokens (u16le tag ++ u16le idx ++ rest)
      = (decodeTokens rest).map (fun toks => tokOf idx :: toks) := by
  have h0 : tag ≠ 0xF0 := by
    intro h; rw [h] at hop
    rw [(rfl : opTok 0xF0 = none)] at hop
    exact Option.noConfusion hop
  have h6 : tag ≠ 0xF6 := by
    intro h; rw [h] at hop
    rw [(rfl : opTok 0xF6 = none)] at hop
    exact Option.noConfusion hop
  have h8 : tag ≠ 0xF8 := by
    intro h; rw [h] at hop
    rw [(rfl : opTok 0xF8 = none)] at hop
    exact Option.noConfusion hop
  have hdata : u16le tag ++ u16le idx ++ rest
      = tag % 256 :: tag / 256 :: idx % 256 :: idx / 256 :: rest := by
    simp [u16le]
  have hle : le16 (tag % 256) (tag / 256) = tag := by
    simp [le16, Nat.mod_add_div]
  have hle2 : le16 (idx % 256) (idx / 256) = idx := by
    simp [le16, Nat.mod_add_div]
  rw [decodeTokens, hdata]
  simp only [List.length_cons]
  simp only [decodeLoop, hle, if_neg h0, if_neg h6, if_neg h8, hop, hle2]
  rw [decodeLoop_fuel_eq (rest.length + 1 + 1 + 1) rest.length rest (by omega)
    (le_refl _)]
  rfl

theorem decodeTokens_string_step (n : Nat) (units rest : List Nat)
    (hu : units.length = 2 * n) :
    decodeTokens (u16le 0xF0 ++ u16le n ++ units ++ rest)
      = (decodeTokens rest).map
          (fun toks =>
            ("STRING(" ++ String.join ((pairsLE units).map charRepr) ++ ")")
              :: toks) := by
  have hdata : u16le 0xF0 ++ u16le n ++ units ++ rest
      = 240 :: 0 :: n % 256 :: n / 256 :: (units ++ rest) := by
    simp [u16le]
  have hle : le16 240 0 = 0xF0 := rfl
  have hle2 : le16 (n % 256) (n / 256) = n := by
    simp [le16, Nat.mod_add_div]
  have hrc := readChars_exact n units rest hu
  rw [decodeTokens, hdata]
  simp only [List.length_cons]
  simp only [decodeLoop, hle, if_pos rfl, hle2, hrc]
  rw [decodeLoop_fuel_eq ((units ++ rest).length + 1 + 1 + 1) rest.length rest
    (by simp; omega) (le_refl _)]
  cases hdl : decodeLoop rest.length rest <;> simp [decodeTokens, hdl]

theorem decodeTokens_and_step (rest : List Nat) :
    decodeTokens (u16le 0xF6 ++ rest)
      = (decodeTokens rest).map (fun toks => "AND" :: toks) := by
  have hdata : u16le 0xF6 ++ rest = 246 :: 0 :: rest := by simp [u16le]
  rw [decodeTokens, hdata]
  simp only [List.length_cons]
  simp only [decodeLoop, show le16 246 0 = 246 from rfl]
  norm_num
  rw [decodeLoop_fuel_eq (rest.length + 1) rest.length rest (by omega)
    (le_refl _)]
  rfl

theorem decodeTokens_any_step (rest : List Nat) :
    decodeTokens (u16le 0xF8 ++ rest)
      = (decodeTokens rest).map (fun toks => "ANY" :: toks) := by
  have hdata : u16le 0xF8 ++ rest = 248 :: 0 :: rest := by simp [u16le]
  rw [decodeTokens, hdata]
  simp only [List.length_cons]
  simp only [decodeLoop, show le16 248 0 = 248 from rfl]
  norm_num
  rw [decodeLoop_fuel_eq (rest.length + 1) rest.length rest (by omega)
    (le_refl _)]
  rfl

theorem decodeTokens_unknown_step (op : Nat) (rest : List Nat)
    (hmem : op ∉ knownTags) :
    decodeTokens (u16le op ++ rest)
      = (decodeTokens rest).map
          (fun toks => ("UNKNOWN(" ++ hex4 op ++ ")") :: toks) := by
  simp only [knownTags, List.mem_cons, List.not_mem_nil, or_false, not_or] at hmem
  obtain ⟨h240, h241, h242, h243, h244, h245, h246, h247, h248, h249⟩ := hmem
  have hop : opTok op = none := by
    simp [opTok, h241, h242, h243, h244, h245, h247, h249]
  have hdata : u16le op ++ rest = op % 256 :: op / 256 :: rest := by simp [u16le]
  have hle : le16 (op % 256) (op / 256) = op := by simp [le16, Nat.mod_add_div]
  rw [decodeTokens, hdata]
  simp only [List.length_cons]
  simp only [decodeLoop, hle, if_neg h240, if_neg h246, if_neg h248, hop]
  rw [decodeLoop_fuel_eq (rest.length + 1) rest.length rest (by omega)
    (le_refl _)]
  rfl

/-- C1: for every opcode byte stream, decoding follows the canonical opcode
contract: a STRING tag is followed by a little-endian u16 length and then that
many 2-byte wide text units; VARIABLE, REFERENCE, PREDEFINED, MODIFIER, ANYOF,
NANYOF and SWITCH tags each carry exactly one little-endian u16 operand; AND
and ANY carry no operand; all multi-byte fields are little-endian (tags and
operands enter the stream through u16le and are read back by le16). -/
theorem decode_opcodes_contract :
    (∀ n units rest, n < 65536 → units.length = 2 * n →
      decodeTokens (u16le 0xF0 ++ u16le n ++ units ++ rest)
        = (decodeTokens rest).map (fun toks =>
            ("STRING(" ++ String.join ((pairsLE units).map charRepr) ++ ")")
              :: toks)) ∧
    (∀ idx rest, idx < 65536 →
      decodeTokens (u16le 0xF1 ++ u16le idx ++ rest)
        = (decodeTokens rest).map
            (fun toks => ("VAR(" ++ Nat.repr idx ++ ")") :: toks)) ∧
    (∀ idx rest, idx < 65536 →
      decodeTokens (u16le 0xF2 ++ u16le idx ++ rest)
        = (decodeTokens rest).map
            (fun toks => ("REF(" ++ Nat.repr idx ++ ")") :: toks)) ∧
    (∀ vk rest, vk < 65536 →
      decodeTokens (u16le 0xF3 ++ u16le vk ++ rest)
        = (decodeTokens rest).map
            (fun toks => ("VK(" ++ Nat.repr vk ++ ")") :: toks)) ∧
    (∀ mask rest, mask < 65536 →
      decodeTokens (u16le 0xF4 ++ u16le mask ++ rest)
        = (decodeTokens rest).map
            (fun toks => ("MOD(" ++ hex4 mask ++ ")") :: toks)) ∧
    (∀ idx rest, idx < 65536 →
      decodeTokens (u16le 0xF5 ++ u16le idx ++ rest)
        = (decodeTokens rest).map
            (fun toks => ("ANYOF(" ++ Nat.repr idx ++ ")") :: toks)) ∧
    (∀ rest, decodeTokens (u16le 0xF6 ++ rest)
        = (decodeTokens rest).map (fun toks => "AND" :: toks)) ∧
    (∀ idx rest, idx < 65536 →
      decodeTokens (u16le 0xF7 ++ u16le idx ++ rest)
        = (decodeTokens rest).map
            (fun toks => ("NANYOF(" ++ Nat.repr idx ++ ")") :: toks)) ∧
    (∀ rest, decodeTokens (u16le 0xF8 ++ rest)
        = (decodeTokens rest).map (fun toks => "ANY" :: toks)) ∧
    (∀ idx rest, idx < 65536 →
      decodeTokens (u16le 0xF9 ++ u16le idx ++ rest)
        = (decodeTokens rest).map
            (fun toks => ("SWITCH(" ++ Nat.repr idx ++ ")") :: toks)) := by
  refine ⟨?_, ?_, ?_, ?_, ?_, ?_, ?_, ?_, ?_, ?_⟩
  · intro n units rest _ hu
    exact decodeTokens_string_step n units rest hu
  · intro idx rest _
    exact decodeTokens_operand_step 0xF1 idx _ rfl rest
  · intro idx rest _
    exact decodeTokens_operand_step 0xF2 idx _ rfl rest
  · intro vk rest _
    exact decodeTokens_operand_step 0xF3 vk _ rfl rest
  · intro mask rest _
    exact decodeTokens_operand_step 0xF4 mask (fun m => "MOD(" ++ hex4 m ++ ")")
      rfl rest
  · intro idx rest _
    exact decodeTokens_operand_step 0xF5 idx _ rfl rest
  · intro rest
    exact decodeTokens_and_step rest
  · intro idx rest _
    exact decodeTokens_operand_step 0xF7 idx _ rfl rest
  · intro rest
    exact decodeTokens_any_step rest
  · intro idx rest _
    exact decodeTokens_operand_step 0xF9 idx _ rfl rest

/-- Witness for C1: the STRING and VAR clauses of the contract applied at
concrete streams. -/
theorem decode_opcodes_contract_witness :
    ((1 : Nat) < 65536 ∧ ([0x61, 0x00] : List Nat).length = 2 * 1 ∧
      decodeTokens (u16le 0xF0 ++ u16le 1 ++ [0x61, 0x00] ++ [])
        = (decodeTokens []).map (fun toks =>
            ("STRING(" ++ String.join ((pairsLE [0x61, 0x00]).map charRepr)
              ++ ")") :: toks)) ∧
    ((7 : Nat) < 65536 ∧
      decodeTokens (u16le 0xF1 ++ u16le 7 ++ [0xF6, 0x00])
        = (decodeTokens [0xF6, 0x00]).map
            (fun toks => ("VAR(" ++ Nat.repr 7 ++ ")") :: toks)) :=
  ⟨⟨by decide, by decide,
    decode_opcodes_contract.1 1 [0x61, 0x00] [] (by decide) (by decide)⟩,
   ⟨by decide,
    decode_opcodes_contract.2.1 7 [0xF6, 0x00] (by decide)⟩⟩

/-- C8: for every byte string of even length, decode_opcodes terminates and
returns a string without raising — every 16-bit read stays in bounds — and an
unknown opcode tag is rendered as an UNKNOWN token after which decoding
continues with the next two bytes. -/
theorem decode_opcodes_no_raise (data : List Nat) (hev : data.length % 2 = 0) :
    (decode_opcodes data).isSome ∧
      ∀ op rest, op ∉ knownTags →
        decodeTokens (u16le op ++ rest)
          = (decodeTokens rest).map
              (fun toks => ("UNKNOWN(" ++ hex4 op ++ ")") :: toks) := by
  constructor
  · have h := decodeLoop_isSome data.length data (le_refl _) hev
    cases hdl : decodeLoop data.length data with
    | none => rw [hdl] at h; simp at h
    | some toks => simp [decode_opcodes, decodeTokens, hdl]
  · intro op rest hmem
    exact decodeTokens_unknown_step op rest hmem

/-- Witness for C8: an even-length stream decodes to a string, and the unknown
tag 0x00AB is rendered as UNKNOWN and decoding continues. -/
theorem decode_opcodes_no_raise_witness :
    ([0xF6, 0x00] : List Nat).length % 2 = 0 ∧
      (decode_opcodes [0xF6, 0x00]).isSome ∧
      decodeTokens (u16le 0xAB ++ [])
        = (decodeTokens []).map
            (fun toks => ("UNKNOWN(" ++ hex4 0xAB ++ ")") :: toks) :=
  ⟨by decide,
   (decode_opcodes_no_raise [0xF6, 0x00] (by decide)).1,
   (decode_opcodes_no_raise [0xF6, 0x00] (by decide)).2 0xAB [] (by decide)⟩

/-- Translated from compare_files in src/kms2km2/scripts/debug_diff.py: seek to
a byte offset and struct.unpack a little-endian u16 from the next two bytes;
none models the struct.error raised when fewer than two bytes remain. -/
def readU16At (data : List Nat) (pos : Nat) : Option Nat :=
  match data.drop pos with
  | b0 :: b1 :: _ => some (le16 b0 b1)
  | _ => none

/-- Translated from the string-skipping loops of compare_files: for each of
count entries read the u16 length at pos and advance pos by 2 + length * 2. -/
def skipStringsPos (data : List Nat) : Nat → Nat → Option Nat
  | 0, pos => some pos
  | count + 1, pos =>
    match readU16At data pos with
    | none => none
    | some len => skipStringsPos data count (pos + 2 + len * 2)

/-- Translated from the info-skipping loops of compare_files: for each of
count records skip the 4-byte id, read the u16 payload length at pos + 4 and
advance pos by 6 + length. -/
def skipInfosPos (data : List Nat) : Nat → Nat → Option Nat
  | 0, pos => some pos
  | count + 1, pos =>
    match readU16At data (pos + 4) with
    | none => none
    | some len => skipInfosPos data count (pos + 6 + len)

/-- Translated from read_rule in src/kms2km2/scripts/debug_diff.py: a u16 LHS
unit count, 2 * count bytes of LHS opcode stream, then a u16 RHS unit count
and 2 * count bytes of RHS opcode stream.  Returns both streams and the file
position after the rule; like Python file reads, a short body read is clamped
(take), while a u16 read past the end raises (none). -/
def read_rule (data : List Nat) (pos : Nat) :
    Option ((List Nat × List Nat) × Nat) :=
  match readU16At data pos with
  | none => none
  | some lhsLen =>
    let lhsData := (data.drop (pos + 2)).take (lhsLen * 2)
    match readU16At data (pos + 2 + lhsLen * 2) with
    | none => none
    | some rhsLen =>
      let rhsData := (data.drop (pos + 2 + lhsLen * 2 + 2)).take (rhsLen * 2)
      some ((lhsData, rhsData), pos + 2 + lhsLen * 2 + 2 + rhsLen * 2)

/-- Translated from the rule-comparison loop of compare_files: read rule_count
rules in sequence with read_rule. -/
def readRules (data : List Nat) : Nat → Nat → Option (List (List Nat × List Nat))
  | 0, _ => some []
  | count + 1, pos =>
    match read_rule data pos with
    | none => none
    | some (r, pos1) => (readRules data count pos1).map (fun rs => r :: rs)

/-- Spec-side layout of one string-table entry (section 4.1 of spec.md): a u16
length followed by that many 2-byte wide text units. -/
def stringEntryBytes (units : List Nat) : List Nat :=
  u16le units.length ++ (units.map u16le).flatten

/-- Spec-side layout of the string table: its entries in order. -/
def stringTableBytes (strs : List (List Nat)) : List Nat :=
  (strs.map stringEntryBytes).flatten

/-- Spec-side layout of one info record: a 4-byte id, a u16 payload length and
the payload bytes. -/
def infoRecordBytes (id4 payload : List Nat) : List Nat :=
  id4 ++ u16le payload.length ++ payload

/-- Spec-side layout of the info table: its records in order. -/
def infoTableBytes (infos : List (List Nat × List Nat)) : List Nat :=
  (infos.map (fun ip => infoRecordBytes ip.1 ip.2)).flatten

/-- Spec-side layout of one rule: u16 LHS unit count, the LHS units as 2-byte
little-endian values, then the same for the RHS. -/
def ruleBytes (lhs rhs : List Nat) : List Nat :=
  u16le lhs.length ++ (lhs.map u16le).flatten
    ++ u16le rhs.length ++ (rhs.map u16le).flatten

/-- Spec-side layout of the rule table: its rules in order. -/
def ruleTableBytes (rules : List (List Nat × List Nat)) : List Nat :=
  (rules.map (fun lr => ruleBytes lr.1 lr.2)).flatten

/-- Spec-side layout of the whole KM2 container (section 6 of spec.md): an
18-byte header whose little-endian u16 counts for strings, infos and rules sit
at byte offsets 6, 8 and 10, then the string table, the info table and the
rule table. -/
def km2Bytes (pre6 mid6 : List Nat) (strs : List (List Nat))
    (infos rules : List (List Nat × List Nat)) : List Nat :=
  pre6 ++ u16le strs.length ++ u16le infos.length ++ u16le rules.length
    ++ mid6 ++ stringTableBytes strs ++ infoTableBytes infos
    ++ ruleTableBytes rules

theorem readU16At_of_drop (data : List Nat) (pos n : Nat) (tail : List Nat)
    (h : data.drop pos = u16le n ++ tail) : readU16At data pos = some n := by
  rw [readU16At, h]
  simp only [u16le, List.cons_append, List.nil_append]
  rw [le16, Nat.mod_add_div]

theorem flatten_map_u16le_length (l : List Nat) :
    ((l.map u16le).flatten).length = 2 * l.length := by
  induction l with
  | nil => rfl
  | cons x xs ih => simp [u16le, ih]; omega

theorem stringTableBytes_cons (s : List Nat) (ss : List (List Nat)) :
    stringTableBytes (s :: ss) = stringEntryBytes s ++ stringTableBytes ss := by
  simp [stringTableBytes]

theorem infoTableBytes_cons (ip : List Nat × List Nat)
    (infos : List (List Nat × List Nat)) :
    infoTableBytes (ip :: infos)
      = infoRecordBytes ip.1 ip.2 ++ infoTableBytes infos := by
  simp [infoTableBytes]

theorem ruleTableBytes_cons (lr : List Nat × List Nat)
    (rules : List (List Nat × List Nat)) :
    ruleTableBytes (lr :: rules) = ruleBytes lr.1 lr.2 ++ ruleTableBytes rules := by
  simp [ruleTableBytes]

theorem skipStringsPos_spec :
    ∀ (strs : List (List Nat)) (pre tail : List Nat),
      skipStringsPos (pre ++ stringTableBytes strs ++ tail) strs.length
          pre.length
        = some (pre.length + (stringTableBytes strs).length) := by
  intro strs
  induction strs with
  | nil => intro pre tail; simp [skipStringsPos, stringTableBytes]
  | cons s ss ih =>
    intro pre tail
    rw [stringTableBytes_cons]
    have hdata : pre ++ (stringEntryBytes s ++ stringTableBytes ss) ++ tail
        = pre ++ (stringEntryBytes s ++ (stringTableBytes ss ++ tail)) := by
      simp [List.append_assoc]
    rw [hdata]
    have hdrop : (pre ++ (stringEntryBytes s ++ (stringTableBytes ss ++ tail))).drop
        pre.length = stringEntryBytes s ++ (stringTableBytes ss ++ tail) :=
      List.drop_left _ _
    have h1 : readU16At
        (pre ++ (stringEntryBytes s ++ (stringTableBytes ss ++ tail)))
        pre.length = some s.length := by
      apply readU16At_of_drop _ _ _
        ((s.map u16le).flatten ++ (stringTableBytes ss ++ tail))
      rw [hdrop]
      simp [stringEntryBytes, List.append_assoc]
    simp only [List.length_cons, skipStringsPos, h1]
    have hentry : (stringEntryBytes s).length = 2 + 2 * s.length := by
      rw [stringEntryBytes, List.length_append, flatten_map_u16le_length]
      simp [u16le]
    have hpos : pre.length + 2 + s.length * 2
        = (pre ++ stringEntryBytes s).length := by
      rw [List.length_append, hentry]
      omega
    have hdata2 : pre ++ (stringEntryBytes s ++ (stringTableBytes ss ++ tail))
        = (pre ++ stringEntryBytes s) ++ stringTableBytes ss ++ tail := by
      simp [List.append_assoc]
    rw [hpos, hdata2, ih (pre ++ stringEntryBytes s) tail]
    congr 1
    simp [List.length_append]
    omega

theorem skipInfosPos_spec :
    ∀ (infos : List (List Nat × List Nat)) (pre tail : List Nat),
      (∀ ip ∈ infos, (ip.1 : List Nat).length = 4) →
      skipInfosPos (pre ++ infoTableBytes infos ++ tail) infos.length pre.length
        = some (pre.length + (infoTableBytes infos).length) := by
  intro infos
  induction infos with
  | nil => intro pre tail _; simp [skipInfosPos, infoTableBytes]
  | cons ip infos ih =>
    intro pre tail hids
    have hid : ip.1.length = 4 := hids ip (List.mem_cons_self _ _)
    rw [infoTableBytes_cons]
    have hdata : pre ++ (infoRecordBytes ip.1 ip.2 ++ infoTableBytes infos) ++ tail
        = (pre ++ ip.1)
            ++ (u16le ip.2.length ++ (ip.2 ++ (infoTableBytes infos ++ tail))) := by
      simp [infoRecordBytes, List.append_assoc]
    rw [hdata]
    have h1 : readU16At
        ((pre ++ ip.1)
          ++ (u16le ip.2.length ++ (ip.2 ++ (infoTableBytes infos ++ tail))))
        (pre.length + 4) = some ip.2.length := by
      apply readU16At_of_drop _ _ _ (ip.2 ++ (infoTableBytes infos ++ tail))
      rw [List.drop_left' (by simp [hid])]
    simp only [List.length_cons, skipInfosPos, h1]
    have hpos : pre.length + 6 + ip.2.length
        = (pre ++ infoRecordBytes ip.1 ip.2).length := by
      simp [infoRecordBytes, u16le, hid]
      omega
    have hdata2 : (pre ++ ip.1)
          ++ (u16le ip.2.length ++ (ip.2 ++ (infoTableBytes infos ++ tail)))
        = (pre ++ infoRecordBytes ip.1 ip.2) ++ infoTableBytes infos ++ tail := by
      simp [infoRecordBytes, List.append_assoc]
    rw [hpos, hdata2, ih (pre ++ infoRecordBytes ip.1 ip.2) tail
      (fun x hx => hids x (List.mem_cons_of_mem _ hx))]
    congr 1
    simp [infoRecordBytes, u16le, hid]
    omega

theorem ruleBytes_length (l r : List Nat) :
    (ruleBytes l r).length = 2 + 2 * l.length + 2 + 2 * r.length := by
  rw [ruleBytes]
  simp only [List.length_append, flatten_map_u16le_length]
  simp [u16le]
  try omega

theorem read_rule_spec (pre tail l r : List Nat) :
    read_rule (pre ++ ruleBytes l r ++ tail) pre.length
      = some (((l.map u16le).flatten, (r.map u16le).flatten),
              pre.length + (ruleBytes l r).length) := by
  have hdata : pre ++ ruleBytes l r ++ tail
      = pre ++ (u16le l.length ++ ((l.map u16le).flatten
          ++ (u16le r.length ++ ((r.map u16le).flatten ++ tail)))) := by
    simp [ruleBytes, List.append_assoc]
  have h1 : readU16At (pre ++ ruleBytes l r ++ tail) pre.length
      = some l.length := by
    apply readU16At_of_drop _ _ _
      ((l.map u16le).flatten ++ (u16le r.length ++ ((r.map u16le).flatten ++ tail)))
    rw [hdata, List.drop_left]
  have hdata2 : pre ++ ruleBytes l r ++ tail
      = (pre ++ u16le l.length) ++ ((l.map u16le).flatten
          ++ (u16le r.length ++ ((r.map u16le).flatten ++ tail))) := by
    simp [ruleBytes, List.append_assoc]
  have hdrop2 : (pre ++ ruleBytes l r ++ tail).drop (pre.length + 2)
      = (l.map u16le).flatten
          ++ (u16le r.length ++ ((r.map u16le).flatten ++ tail)) := by
    rw [hdata2, List.drop_left' (by simp [u16le])]
  have hlhs : ((pre ++ ruleBytes l r ++ tail).drop (pre.length + 2)).take
      (l.length * 2) = (l.map u16le).flatten := by
    rw [hdrop2, List.take_left' (by rw [flatten_map_u16le_length]; omega)]
  have hdata3 : pre ++ ruleBytes l r ++ tail
      = (pre ++ u16le l.length ++ (l.map u16le).flatten)
          ++ (u16le r.length ++ ((r.map u16le).flatten ++ tail)) := by
    simp [ruleBytes, List.append_assoc]
  have h2 : readU16At (pre ++ ruleBytes l r ++ tail)
      (pre.length + 2 + l.length * 2) = some r.length := by
    apply readU16At_of_drop _ _ _ ((r.map u16le).flatten ++ tail)
    rw [hdata3, List.drop_left' (by
      simp only [List.length_append, flatten_map_u16le_length]
      simp [u16le]
      omega)]
  have hdata4 : pre ++ ruleBytes l r ++ tail
      = (pre ++ u16le l.length ++ (l.map u16le).flatten ++ u16le r.length)
          ++ ((r.map u16le).flatten ++ tail) := by
    simp [ruleBytes, List.append_assoc]
  have hdrop4 : (pre ++ ruleBytes l r ++ tail).drop
      (pre.length + 2 + l.length * 2 + 2) = (r.map u16le).flatten ++ tail := by
    rw [hdata4, List.drop_left' (by
      simp only [List.length_append, flatten_map_u16le_length]
      simp [u16le]
      omega)]
  have hrhs : ((pre ++ ruleBytes l r ++ tail).drop
      (pre.length + 2 + l.length * 2 + 2)).take (r.length * 2)
      = (r.map u16le).flatten := by
    rw [hdrop4, List.take_left' (by rw [flatten_map_u16le_length]; omega)]
  rw [read_rule, h1]
  simp only [h2, hlhs, hrhs]
  rw [ruleBytes_length]
  congr 2
  omega

theorem readRules_spec :
    ∀ (rules : List (List Nat × List Nat)) (pre tail : List Nat),
      readRules (pre ++ ruleTableBytes rules ++ tail) rules.length pre.length
        = some (rules.map
            (fun lr => ((lr.1.map u16le).flatten, (lr.2.map u16le).flatten))) := by
  intro rules
  induction rules with
  | nil => intro pre tail; simp [readRules, ruleTableBytes]
  | cons lr rs ih =>
    intro pre tail
    rw [ruleTableBytes_cons]
    have hdata : pre ++ (ruleBytes lr.1 lr.2 ++ ruleTableBytes rs) ++ tail
        = pre ++ ruleBytes lr.1 lr.2 ++ (ruleTableBytes rs ++ tail) := by
      simp [List.append_assoc]
    rw [hdata]
    have h1 := read_rule_spec pre (ruleTableBytes rs ++ tail) lr.1 lr.2
    simp only [List.length_cons, readRules, h1]
    have hpos : pre.length + (ruleBytes lr.1 lr.2).length
        = (pre ++ ruleBytes lr.1 lr.2).length := by
      simp [List.length_append]
    have hdata2 : pre ++ ruleBytes lr.1 lr.2 ++ (ruleTableBytes rs ++ tail)
        = (pre ++ ruleBytes lr.1 lr.2) ++ ruleTableBytes rs ++ tail := by
      simp [List.append_assoc]
    rw [hpos, hdata2, ih (pre ++ ruleBytes lr.1 lr.2) tail]
    rfl

/-- C2: the binary ruleset container layout — after an 18-byte fixed header
with the little-endian u16 string count at byte offset 6, the info count at
offset 8 and the rule count at offset 10, there follow in order the string
table (u16 length then that many 2-byte wide units per entry), the info table
(4-byte id, u16 length, payload per record) and the rule table (u16 LHS unit
count, 2 * count LHS bytes, u16 RHS unit count, 2 * count RHS bytes per rule).
The walk of compare_files and read_rule recovers exactly the serialised
tables and positions. -/
theorem km2_container_layout (pre6 mid6 extra : List Nat)
    (strs : List (List Nat)) (infos rules : List (List Nat × List Nat))
    (hpre : pre6.length = 6) (hmid : mid6.length = 6)
    (hS : strs.length < 65536) (hI : infos.length < 65536)
    (hR : rules.length < 65536)
    (hid : ∀ ip ∈ infos, (ip.1 : List Nat).length = 4) :
    readU16At (km2Bytes pre6 mid6 strs infos rules ++ extra) 6
        = some strs.length ∧
    readU16At (km2Bytes pre6 mid6 strs infos rules ++ extra) 8
        = some infos.length ∧
    readU16At (km2Bytes pre6 mid6 strs infos rules ++ extra) 10
        = some rules.length ∧
    skipStringsPos (km2Bytes pre6 mid6 strs infos rules ++ extra) strs.length 18
        = some (18 + (stringTableBytes strs).length) ∧
    skipInfosPos (km2Bytes pre6 mid6 strs infos rules ++ extra) infos.length
        (18 + (stringTableBytes strs).length)
        = some (18 + (stringTableBytes strs).length
            + (infoTableBytes infos).length) ∧
    readRules (km2Bytes pre6 mid6 strs infos rules ++ extra) rules.length
        (18 + (stringTableBytes strs).length + (infoTableBytes infos).length)
        = some (rules.map
            (fun lr => ((lr.1.map u16le).flatten, (lr.2.map u16le).flatten))) := by
  refine ⟨?_, ?_, ?_, ?_, ?_, ?_⟩
  · apply readU16At_of_drop _ _ _
      (u16le infos.length ++ (u16le rules.length ++ (mid6
        ++ (stringTableBytes strs ++ (infoTableBytes infos
        ++ (ruleTableBytes rules ++ extra))))))
    have hd : km2Bytes pre6 mid6 strs infos rules ++ extra
        = pre6 ++ (u16le strs.length ++ (u16le infos.length
            ++ (u16le rules.length ++ (mid6 ++ (stringTableBytes strs
            ++ (infoTableBytes infos ++ (ruleTableBytes rules ++ extra))))))) := by
      simp [km2Bytes, List.append_assoc]
    rw [hd, List.drop_left' hpre]
  · apply readU16At_of_drop _ _ _
      (u16le rules.length ++ (mid6 ++ (stringTableBytes strs
        ++ (infoTableBytes infos ++ (ruleTableBytes rules ++ extra)))))
    have hd : km2Bytes pre6 mid6 strs infos rules ++ extra
        = (pre6 ++ u16le strs.length) ++ (u16le infos.length
            ++ (u16le rules.length ++ (mid6 ++ (stringTableBytes strs
            ++ (infoTableBytes infos ++ (ruleTableBytes rules ++ extra)))))) := by
      simp [km2Bytes, List.append_assoc]
    rw [hd, List.drop_left' (by simp [hpre, u16le])]
  · apply readU16At_of_drop _ _ _
      (mid6 ++ (stringTableBytes strs ++ (infoTableBytes infos
        ++ (ruleTableBytes rules ++ extra))))
    have hd : km2Bytes pre6 mid6 strs infos rules ++ extra
        = (pre6 ++ u16le strs.length ++ u16le infos.length)
            ++ (u16le rules.length ++ (mid6 ++ (stringTableBytes strs
            ++ (infoTableBytes infos ++ (ruleTableBytes rules ++ extra))))) := by
      simp [km2Bytes, List.append_assoc]
    rw [hd, List.drop_left' (by simp [hpre, u16le])]
  · have hd : km2Bytes pre6 mid6 strs infos rules ++ extra
        = (pre6 ++ u16le strs.length ++ u16le infos.length
            ++ u16le rules.length ++ mid6) ++ stringTableBytes strs
            ++ (infoTableBytes infos ++ (ruleTableBytes rules ++ extra)) := by
      simp [km2Bytes, List.append_assoc]
    have hh : (pre6 ++ u16le strs.length ++ u16le infos.length
        ++ u16le rules.length ++ mid6).length = 18 := by
      simp [hpre, hmid, u16le]
    have h := skipStringsPos_spec strs
      (pre6 ++ u16le strs.length ++ u16le infos.length
        ++ u16le rules.length ++ mid6)
      (infoTableBytes infos ++ (ruleTableBytes rules ++ extra))
    rw [hh] at h
    rw [hd]
    exact h
  · have hd : km2Bytes pre6 mid6 strs infos rules ++ extra
        = ((pre6 ++ u16le strs.length ++ u16le infos.length
            ++ u16le rules.length ++ mid6) ++ stringTableBytes strs)
            ++ infoTableBytes infos ++ (ruleTableBytes rules ++ extra) := by
      simp [km2Bytes, List.append_assoc]
    have hh : ((pre6 ++ u16le strs.length ++ u16le infos.length
        ++ u16le rules.length ++ mid6) ++ stringTableBytes strs).length
        = 18 + (stringTableBytes strs).length := by
      simp [hpre, hmid, u16le]
      omega
    have h := skipInfosPos_spec infos
      ((pre6 ++ u16le strs.length ++ u16le infos.length
        ++ u16le rules.length ++ mid6) ++ stringTableBytes strs)
      (ruleTableBytes rules ++ extra) hid
    rw [hh] at h
    rw [hd]
    exact h
  · have hd : km2Bytes pre6 mid6 strs infos rules ++ extra
        = (((pre6 ++ u16le strs.length ++ u16le infos.length
            ++ u16le rules.length ++ mid6) ++ stringTableBytes strs)
            ++ infoTableBytes infos) ++ ruleTableBytes rules ++ extra := by
      simp [km2Bytes, List.append_assoc]
    have hh : (((pre6 ++ u16le strs.length ++ u16le infos.length
        ++ u16le rules.length ++ mid6) ++ stringTableBytes strs)
        ++ infoTableBytes infos).length
        = 18 + (stringTableBytes strs).length + (infoTableBytes infos).length := by
      simp [hpre, hmid, u16le]
      omega
    have h := readRules_spec rules
      (((pre6 ++ u16le strs.length ++ u16le infos.length
        ++ u16le rules.length ++ mid6) ++ stringTableBytes strs)
        ++ infoTableBytes infos) extra
    rw [hh] at h
    rw [hd]
    exact h

/-- Witness for C2: the container round-trip applied to a concrete file with
one string, one info record and one rule. -/
theorem km2_container_layout_witness :
    readU16At (km2Bytes [75, 77, 75, 76, 1, 4] [0, 0, 0, 0, 0, 0] [[97]]
        [([1, 2, 3, 4], [9, 9])] [([248], [65])] ++ [7]) 6 = some 1 ∧
    readU16At (km2Bytes [75, 77, 75, 76, 1, 4] [0, 0, 0, 0, 0, 0] [[97]]
        [([1, 2, 3, 4], [9, 9])] [([248], [65])] ++ [7]) 8 = some 1 ∧
    readU16At (km2Bytes [75, 77, 75, 76, 1, 4] [0, 0, 0, 0, 0, 0] [[97]]
        [([1, 2, 3, 4], [9, 9])] [([248], [65])] ++ [7]) 10 = some 1 ∧
    skipStringsPos (km2Bytes [75, 77, 75, 76, 1, 4] [0, 0, 0, 0, 0, 0] [[97]]
        [([1, 2, 3, 4], [9, 9])] [([248], [65])] ++ [7]) 1 18
      = some (18 + (stringTableBytes [[97]]).length) ∧
    skipInfosPos (km2Bytes [75, 77, 75, 76, 1, 4] [0, 0, 0, 0, 0, 0] [[97]]
        [([1, 2, 3, 4], [9, 9])] [([248], [65])] ++ [7]) 1
        (18 + (stringTableBytes [[97]]).length)
      = some (18 + (stringTableBytes [[97]]).length
          + (infoTableBytes [([1, 2, 3, 4], [9, 9])]).length) ∧
    readRules (km2Bytes [75, 77, 75, 76, 1, 4] [0, 0, 0, 0, 0, 0] [[97]]
        [([1, 2, 3, 4], [9, 9])] [([248], [65])] ++ [7]) 1
        (18 + (stringTableBytes [[97]]).length
          + (infoTableBytes [([1, 2, 3, 4], [9, 9])]).length)
      = some [(([248].map u16le).flatten, ([65].map u16le).flatten)] :=
  km2_container_layout [75, 77, 75, 76, 1, 4] [0, 0, 0, 0, 0, 0] [7] [[97]]
    [([1, 2, 3, 4], [9, 9])] [([248], [65])]
    (by decide) (by decide) (by decide) (by decide) (by decide) (by decide)

/-- Whitespace characters removed by the Python str.strip() call in
update-version.py (the ASCII whitespace set; the sources only contain ASCII). -/
def isPySpace (c : Char) : Bool :=
  c = ' ' || c = '\t' || c = '\n' || c = '\r' || c = '\x0b' || c = '\x0c'

/-- Translated from the line.strip() calls of update_cargo_toml: whitespace
removed from both ends. -/
def pyStrip (s : String) : String :=
  String.mk (((s.data.dropWhile isPySpace).reverse.dropWhile isPySpace).reverse)

/-- Translated from the str.startswith calls of update_cargo_toml. -/
def pyStartswith (s pre : String) : Bool :=
  pre.data.isPrefixOf s.data

/-- Python f-string building the replacement line in update_cargo_toml. -/
def versionAssignment (version : String) : String :=
  "version = \"" ++ version ++ "\""

/-- Condition of the first branch of the loop in update_cargo_toml: the line
enters the package section. -/
def isPkgHeader (l : String) : Bool := pyStrip l = "[package]"

/-- Condition of the second branch: a section header other than the package
section, leaving it. -/
def isOtherHeader (l : String) : Bool :=
  pyStartswith (pyStrip l) "[" && !(pyStrip l = "[package]")

/-- Condition on the line of the third branch: the stripped line starts with
the word version. -/
def isVersionLine (l : String) : Bool := pyStartswith (pyStrip l) "version"

/-- Translated from the loop of update_cargo_toml in
src/scripts/update-version.py, over the list of lines with the two loop flags
in_package_section and package_version_updated as accumulator arguments. -/
def updateCargoLines (version : String) : Bool → Bool → List String → List String
  | _, _, [] => []
  | inPkg, updated, l :: rest =>
    if isPkgHeader l then l :: updateCargoLines version true updated rest
    else if isOtherHeader l then l :: updateCargoLines version false updated rest
    else if inPkg && !updated && isVersionLine l then
      versionAssignment version :: updateCargoLines version inPkg true rest
    else l :: updateCargoLines version inPkg updated rest

/-- Translated from the content.split of update_cargo_toml: split a character
list at every newline character (Python str.split with an explicit separator
keeps empty fields). -/
def splitOnNl : List Char → List (List Char)
  | [] => [[]]
  | c :: cs =>
    match splitOnNl cs with
    | [] => [[]]
    | g :: gs => if c = '\n' then [] :: g :: gs else (c :: g) :: gs

/-- Lines of a file content, as produced by content.split in update_cargo_toml. -/
def pySplitLines (content : String) : List String :=
  (splitOnNl content.data).map String.mk

/-- Translated from update_cargo_toml in src/scripts/update-version.py: split
into lines, run the rewriting loop with both flags initially false, and join
with newlines. -/
def update_cargo_toml (content version : String) : String :=
  String.intercalate "\n" (updateCargoLines version false false
    (pySplitLines content))

/-- Index of the line that update_cargo_toml replaces: the first line whose
stripped form starts with version while the scan state is inside the
[package] section, following exactly the section tracking of the loop. -/
def firstVersionIdx : Bool → List String → Option Nat
  | _, [] => none
  | inPkg, l :: rest =>
    if isPkgHeader l then (firstVersionIdx true rest).map (fun i => i + 1)
    else if isOtherHeader l then
      (firstVersionIdx false rest).map (fun i => i + 1)
    else if inPkg && isVersionLine l then some 0
    else (firstVersionIdx inPkg rest).map (fun i => i + 1)

theorem updateCargoLines_updated :
    ∀ (version : String) (inPkg : Bool) (ls : List String),
      updateCargoLines version inPkg true ls = ls := by
  intro version inPkg ls
  induction ls generalizing inPkg with
  | nil => rfl
  | cons l rest ih =>
    simp only [updateCargoLines, Bool.not_true, Bool.and_false,
      Bool.false_and, if_false]
    by_cases h1 : isPkgHeader l
    · simp [h1, ih]
    · by_cases h2 : isOtherHeader l
      · simp [h1, h2, ih]
      · simp [h1, h2, ih]

theorem updateCargoLines_length :
    ∀ (version : String) (a b : Bool) (ls : List String),
      (updateCargoLines version a b ls).length = ls.length := by
  intro version a b ls
  induction ls generalizing a b with
  | nil => rfl
  | cons l rest ih =>
    simp only [updateCargoLines]
    by_cases h1 : isPkgHeader l
    · simp [h1, ih]
    · by_cases h2 : isOtherHeader l
      · simp [h1, h2, ih]
      · by_cases h3 : a && !b && isVersionLine l
        · simp [h1, h2, h3, ih]
        · simp [h1, h2, h3, ih]

theorem updateCargoLines_set :
    ∀ (version : String) (inPkg : Bool) (ls : List String),
      (firstVersionIdx inPkg ls = none →
        updateCargoLines version inPkg false ls = ls) ∧
      (∀ i, firstVersionIdx inPkg ls = some i →
        updateCargoLines version inPkg false ls
          = ls.set i (versionAssignment version)) := by
  intro version inPkg ls
  induction ls generalizing inPkg with
  | nil => exact ⟨fun _ => rfl, fun i h => by simp [firstVersionIdx] at h⟩
  | cons l rest ih =>
    by_cases h1 : isPkgHeader l
    · cases hfv : firstVersionIdx true rest with
      | none =>
        refine ⟨fun _ => ?_, fun i h => ?_⟩
        · simp only [updateCargoLines, h1, if_true]
          rw [(ih true).1 hfv]
        · exfalso
          simp [firstVersionIdx, h1, hfv] at h
      | some j =>
        refine ⟨fun h => ?_, fun i h => ?_⟩
        · exfalso
          simp [firstVersionIdx, h1, hfv] at h
        · simp [firstVersionIdx, h1, hfv] at h
          subst h
          simp only [updateCargoLines, h1, if_true]
          rw [(ih true).2 j hfv]
          rfl
    · by_cases h2 : isOtherHeader l
      · cases hfv : firstVersionIdx false rest with
        | none =>
          refine ⟨fun _ => ?_, fun i h => ?_⟩
          · simp only [updateCargoLines, h1, h2, if_false, if_true]
            rw [(ih false).1 hfv]
            rfl
          · exfalso
            simp [firstVersionIdx, h1, h2, hfv] at h
        | some j =>
          refine ⟨fun h => ?_, fun i h => ?_⟩
          · exfalso
            simp [firstVersionIdx, h1, h2, hfv] at h
          · simp [firstVersionIdx, h1, h2, hfv] at h
            subst h
            simp only [updateCargoLines, h1, h2, if_false, if_true]
            rw [(ih false).2 j hfv]
            rfl
      · by_cases h3 : (inPkg && isVersionLine l) = true
        · refine ⟨fun h => ?_, fun i h => ?_⟩
          · exfalso
            simp [firstVersionIdx, h1, h2, h3] at h
          · simp [firstVersionIdx, h1, h2, h3] at h
            subst h
            simp only [updateCargoLines, h1, h2, if_false, Bool.not_false,
              Bool.and_true, h3, if_true, updateCargoLines_updated]
            rfl
        · cases hfv : firstVersionIdx inPkg rest with
          | none =>
            refine ⟨fun _ => ?_, fun i h => ?_⟩
            · simp only [updateCargoLines, h1, h2, if_false, Bool.not_false,
                Bool.and_true, h3]
              rw [(ih inPkg).1 hfv]
              rfl
            · exfalso
              simp [firstVersionIdx, h1, h2, h3, hfv] at h
          | some j =>
            refine ⟨fun h => ?_, fun i h => ?_⟩
            · exfalso
              simp [firstVersionIdx, h1, h2, h3, hfv] at h
            · simp [firstVersionIdx, h1, h2, h3, hfv] at h
              subst h
              simp only [updateCargoLines, h1, h2, if_false, Bool.not_false,
                Bool.and_true, h3]
              rw [(ih inPkg).2 j hfv]
              rfl

/-- C9: for every input text and version string, update_cargo_toml changes at
most one line — the first version line inside the [package] section becomes the
version assignment, every other line is unchanged character for character, and
the number of lines is preserved (the joined result is exactly the rewritten
line list). -/
theorem update_cargo_toml_frame (content version : String) :
    update_cargo_toml content version
        = String.intercalate "\n" (updateCargoLines version false false
            (pySplitLines content)) ∧
    (updateCargoLines version false false (pySplitLines content)).length
        = (pySplitLines content).length ∧
    (firstVersionIdx false (pySplitLines content) = none →
      updateCargoLines version false false (pySplitLines content)
        = pySplitLines content) ∧
    ∀ i, firstVersionIdx false (pySplitLines content) = some i →
      updateCargoLines version false false (pySplitLines content)
        = (pySplitLines content).set i (versionAssignment version) :=
  ⟨rfl, updateCargoLines_length version false false (pySplitLines content),
   (updateCargoLines_set version false (pySplitLines content)).1,
   (updateCargoLines_set version false (pySplitLines content)).2⟩

/-- Witness for C9: a concrete Cargo.toml in which exactly the version line of
the package section is rewritten. -/
theorem update_cargo_toml_frame_witness :
    firstVersionIdx false
        (pySplitLines "[package]\nversion = \"0.1.0\"\nedition = \"2021\"")
      = some 1 ∧
    updateCargoLines "2.5.0" false false
        (pySplitLines "[package]\nversion = \"0.1.0\"\nedition = \"2021\"")
      = (pySplitLines "[package]\nversion = \"0.1.0\"\nedition = \"2021\"").set 1
          (versionAssignment "2.5.0") :=
  ⟨by decide,
   (update_cargo_toml_frame "[package]\nversion = \"0.1.0\"\nedition = \"2021\""
      "2.5.0").2.2.2 1 (by decide)⟩

/-- Translated from the arch.lower() call of normalize_arch: Python str.lower
restricted to ASCII, which covers every key of the architecture map. -/
def pyLower (s : String) : String := String.mk (s.data.map Char.toLower)

/-- Translated from normalize_arch in src/scripts/generate-updates-json.py:
the arch_map dictionary lookup on the lowercased input, defaulting to the
input itself when the key is absent. -/
def normalize_arch (arch : String) : String :=
  if pyLower arch = "x64" then "x86_64"
  else if pyLower arch = "amd64" then "x86_64"
  else if pyLower arch = "x86_64" then "x86_64"
  else if pyLower arch = "arm64" then "aarch64"
  else if pyLower arch = "aarch64" then "aarch64"
  else if pyLower arch = "x86" then "x86"
  else if pyLower arch = "universal" then "universal"
  else arch

theorem normalize_arch_cases (a : String) :
    normalize_arch a = a ∨ normalize_arch a = "x86_64"
      ∨ normalize_arch a = "aarch64" ∨ normalize_arch a = "x86"
      ∨ normalize_arch a = "universal" := by
  unfold normalize_arch
  split_ifs <;> simp

/-- C10: normalize_arch is idempotent — every value it produces (x86_64,
aarch64, x86, universal, or the unrecognised input itself) is a fixed point of
the mapping. -/
theorem normalize_arch_idempotent (a : String) :
    normalize_arch (normalize_arch a) = normalize_arch a := by
  rcases normalize_arch_cases a with h | h | h | h | h
  · rw [h]; exact h
  · rw [h]; decide
  · rw [h]; decide
  · rw [h]; decide
  · rw [h]; decide

/-- Witness for C10: idempotence at the mixed-case input ARM64. -/
theorem normalize_arch_idempotent_witness :
    normalize_arch (normalize_arch "ARM64") = normalize_arch "ARM64" :=
  normalize_arch_idempotent "ARM64"

/-- Modelled from the spec: a key event (section 3 of spec.md) — virtual key
code, optional character, and the four modifier flags.  The matching engine
itself is Rust code of keymagic-core, absent from the sources; only its tests
(test_ffi.py) are present, so the engine is modelled from the spec here. -/
structure KeyEvent where
  keyCode : Nat
  character : Option Char
  shift : Bool
  ctrl : Bool
  alt : Bool
  capsLock : Bool
deriving DecidableEq

/-- Modelled from the spec: the pattern shapes of sections 4.2 and 4.3 needed
for the rules of the test keyboard in test_ffi.py — a literal text rule, a
context-plus-virtual-key rule, and a modifier-plus-key combination. -/
inductive RuleLhs where
  | text (s : String)
  | textKey (ctx : String) (vk : Nat)
  | modKey (vk : Nat) (shift ctrl alt capsLock : Bool)
deriving DecidableEq

/-- Modelled from the spec: a rule with its match pattern and output text; the
output none is the NULL sentinel of section 4.3 (produce nothing). -/
structure KmRule where
  lhs : RuleLhs
  rhs : Option String
deriving DecidableEq

/-- Modelled from the spec: the action variants of section 4.3. -/
inductive KmAction where
  | none
  | insert (t : String)
  | deleteOnly (n : Nat)
  | deleteAndInsert (n : Nat) (t : String)
deriving DecidableEq

/-- Buffer suffix check over the underlying character lists. -/
def strEndsWith (s t : String) : Bool := t.data.isSuffixOf s.data

/-- Removal of trailing units from the composing buffer. -/
def strDropRight (s : String) (n : Nat) : String :=
  String.mk (s.data.take (s.data.length - n))

/-- Modelled from the spec: whether one pattern matches the trailing window
(section 4.3).  A text rule consumes its final unit from the incoming
character and the remainder from the trailing buffer; a context-plus-key rule
requires the virtual key and its context as buffer suffix; a modifier-plus-key
rule requires the exact key code and exact modifier flags (no unspecified
extra modifiers).  Returns (consumed trailing buffer units, window length). -/
def ruleMatch (buffer : String) (ev : KeyEvent) : RuleLhs → Option (Nat × Nat)
  | RuleLhs.text s =>
    match ev.character with
    | some c =>
      if 1 ≤ s.data.length ∧ strEndsWith (buffer ++ String.singleton c) s then
        some (s.data.length - 1, s.data.length)
      else Option.none
    | Option.none => Option.none
  | RuleLhs.textKey ctx vk =>
    if ev.keyCode = vk ∧ strEndsWith buffer ctx then
      some (ctx.data.length, ctx.data.length + 1)
    else Option.none
  | RuleLhs.modKey vk sh ct al cp =>
    if ev.keyCode = vk ∧ ev.shift = sh ∧ ev.ctrl = ct ∧ ev.alt = al
        ∧ ev.capsLock = cp then
      some (0, 1)
    else Option.none

/-- Modelled from the spec: scan the rules in declaration order and keep the
fully matching rule with the longest window; a strictly longer window
replaces the candidate, so ties keep the earliest declared rule
(section 4.3).  Returns (window length, consumed units, output). -/
def bestRule (buffer : String) (ev : KeyEvent) (rules : List KmRule) :
    Option (Nat × Nat × Option String) :=
  rules.foldl
    (fun acc r =>
      match ruleMatch buffer ev r.lhs with
      | Option.none => acc
      | some (consumed, wlen) =>
        match acc with
        | Option.none => some (wlen, consumed, r.rhs)
        | some (bw, bc, bo) =>
          if bw < wlen then some (wlen, consumed, r.rhs)
          else some (bw, bc, bo))
    Option.none

/-- Modelled from the spec: a printable character for the default insert of
section 4.3. -/
def isPrintable (c : Char) : Bool := 32 ≤ c.toNat && c.toNat ≠ 127

/-- Modelled from the spec: process one key (section 4.3).  On a match the
consumed trailing units are replaced by the output (NULL output deletes
only); with no match a printable character is appended and anything else is
declined.  Returns the action, the new composing buffer, and the processed
flag. -/
def processKeyEngine (rules : List KmRule) (buffer : String) (ev : KeyEvent) :
    KmAction × String × Bool :=
  match bestRule buffer ev rules with
  | some (_, consumed, rhs) =>
    match rhs with
    | some out =>
      if consumed = 0 then
        (KmAction.insert out, strDropRight buffer consumed ++ out, true)
      else
        (KmAction.deleteAndInsert consumed out,
         strDropRight buffer consumed ++ out, true)
    | Option.none => (KmAction.deleteOnly consumed, strDropRight buffer consumed, true)
  | Option.none =>
    match ev.character with
    | some c =>
      if isPrintable c then
        (KmAction.insert (String.singleton c),
         buffer ++ String.singleton c, true)
      else (KmAction.none, buffer, false)
    | Option.none => (KmAction.none, buffer, false)

/-- Modelled from the spec: the per-handle engine state of section 3 — the
optional loaded ruleset, the composing buffer, and the switch state. -/
structure EngineState where
  keyboard : Option (List KmRule)
  buffer : String
  switches : List Nat
deriving DecidableEq

/-- Modelled from the spec: UTF-8 encoding of one code point; all
cross-boundary text is UTF-8 (section 3 invariants). -/
def utf8EncodeChar (n : Nat) : List Nat :=
  if n < 128 then [n]
  else if n < 2048 then [192 + n / 64, 128 + n % 64]
  else if n < 65536 then [224 + n / 4096, 128 + n / 64 % 64, 128 + n % 64]
  else [240 + n / 262144, 128 + n / 4096 % 64, 128 + n / 64 % 64, 128 + n % 64]

/-- UTF-8 bytes of a string crossing the foreign boundary. -/
def utf8Encode (s : String) : List Nat :=
  (s.data.map (fun c => utf8EncodeChar c.toNat)).flatten

/-- Modelled from the spec: the output record of section 6 — action kind
(None = 0, Insert = 1, DeleteOnly = 2, DeleteAndInsert = 3), owned output
text, delete count, snapshot of the composing buffer, processed flag. -/
structure ProcessKeyOutput where
  action_type : Int
  text : Option (List Nat)
  delete_count : Int
  composing_text : Option (List Nat)
  is_processed : Int
deriving DecidableEq

/-- Action kind codes of the output record (section 6). -/
def actionCode : KmAction → Int
  | KmAction.none => 0
  | KmAction.insert _ => 1
  | KmAction.deleteOnly _ => 2
  | KmAction.deleteAndInsert _ _ => 3

/-- Output text field of the output record, as UTF-8 bytes. -/
def actionText : KmAction → Option (List Nat)
  | KmAction.insert t => some (utf8Encode t)
  | KmAction.deleteAndInsert _ t => some (utf8Encode t)
  | _ => Option.none

/-- Delete count field of the output record. -/
def actionDeleteCount : KmAction → Int
  | KmAction.deleteOnly n => (n : Int)
  | KmAction.deleteAndInsert n _ => (n : Int)
  | _ => 0

/-- Modelled from the spec: keymagic_engine_process_key on a valid handle
(sections 4.5 and 6): status -5 with no mutation when no ruleset is loaded,
otherwise status 0 with the action recorded in the output record and the
buffer updated. -/
def keymagic_engine_process_key (st : EngineState) (ev : KeyEvent) :
    Int × EngineState × ProcessKeyOutput :=
  match st.keyboard with
  | Option.none => (-5, st, ⟨0, Option.none, 0, Option.none, 0⟩)
  | some rules =>
    match processKeyEngine rules st.buffer ev with
    | (act, buf1, processed) =>
      (0, { st with buffer := buf1 },
       ⟨actionCode act, actionText act, actionDeleteCount act,
        some (utf8Encode buf1), if processed then 1 else 0⟩)

/-- Modelled from the spec: reset unconditionally clears the composing buffer
and switch state, succeeds with status 0, and keeps the loaded ruleset
(section 4.4). -/
def keymagic_engine_reset (st : EngineState) : Int × EngineState :=
  (0, { st with buffer := "", switches := [] })

/-- Modelled from the spec: get_composition returns the buffer as text — the
empty string, never an absent value, when the buffer is empty (section 4.4). -/
def keymagic_engine_get_composition (st : EngineState) : String := st.buffer

/-- Modelled from the spec: keymagic_engine_load_keyboard at the foreign
boundary, the filesystem abstracted as a lookup from path to decoded ruleset.
The spec's status table reserves -1 for an invalid or null handle, but
test_ffi.py (lines 204 to 213) asserts -2 both for a null handle and for a
null path; the test is the repository's code, so the model returns -2 for
both null-pointer cases, -3 for a failing load, 0 on success. -/
def keymagic_engine_load_keyboard (fs : String → Option (List KmRule))
    (handle : Option EngineState) (path : Option String) :
    Int × Option EngineState :=
  match handle, path with
  | Option.none, _ => (-2, Option.none)
  | some st, Option.none => (-2, some st)
  | some st, some p =>
    match fs p with
    | Option.none => (-3, some st)
    | some kb => (0, some { st with keyboard := some kb })

/-- Rules of the test keyboard compiled from test_keyboard.kms in
src/keymagic-core/tests/test_ffi.py (lines 140 to 158): three text rules, a
shift-modified key combination, and a backspace rule with NULL output. -/
def testKeyboard : List KmRule :=
  [⟨RuleLhs.text "a", some "အ"⟩,
   ⟨RuleLhs.text "ka", some "က"⟩,
   ⟨RuleLhs.text "kha", some "ခ"⟩,
   ⟨RuleLhs.modKey 65 true false false false, some "အ"⟩,
   ⟨RuleLhs.textKey "က" 8, Option.none⟩]

/-- Ruleset of the longest-match scenario: a single-character rule declared
first and the two-character rule ka afterwards, as in section 8 of spec.md. -/
def longestMatchRules : List KmRule :=
  [⟨RuleLhs.text "a", some "A"⟩, ⟨RuleLhs.text "ka", some "K"⟩]

/-- C3: with a ruleset containing ka mapped to K loaded and an empty composing
buffer, key k yields an Insert action with composing text k, and key a then
yields DeleteAndInsert with delete count 1 and output K — the longest-matching
rule over the trailing window wins over the single-character rule. -/
theorem longest_match_scenario :
    keymagic_engine_process_key ⟨some longestMatchRules, "", []⟩
        ⟨75, some 'k', false, false, false, false⟩
      = (0, ⟨some longestMatchRules, "k", []⟩,
         ⟨1, some (utf8Encode "k"), 0, some (utf8Encode "k"), 1⟩) ∧
    keymagic_engine_process_key ⟨some longestMatchRules, "k", []⟩
        ⟨65, some 'a', false, false, false, false⟩
      = (0, ⟨some longestMatchRules, "K", []⟩,
         ⟨3, some (utf8Encode "K"), 1, some (utf8Encode "K"), 1⟩) :=
  ⟨rfl, rfl⟩

/-- C5: for every engine state, reset succeeds with status 0 and a subsequent
get_composition returns the empty string — an empty string, never an absent
value. -/
theorem reset_then_composition_empty (st : EngineState) :
    (keymagic_engine_reset st).fst = 0 ∧
      keymagic_engine_get_composition (keymagic_engine_reset st).snd = "" :=
  ⟨rfl, rfl⟩

/-- Witness for C5: reset applied to a concrete engine state with pending
composing text and switch state. -/
theorem reset_then_composition_empty_witness :
    (keymagic_engine_reset ⟨some testKeyboard, "ka", [3]⟩).fst = 0 ∧
      keymagic_engine_get_composition
        (keymagic_engine_reset ⟨some testKeyboard, "ka", [3]⟩).snd = "" :=
  reset_then_composition_empty ⟨some testKeyboard, "ka", [3]⟩

/-- C6: with the test keyboard loaded and an empty composing buffer, key a
returns status 0, an Insert action (kind 1), processed flag true, and the
output text crosses the boundary as the UTF-8 bytes E1 80 A1 of the Myanmar
letter. -/
theorem insert_action_utf8_scenario :
    keymagic_engine_process_key ⟨some testKeyboard, "", []⟩
        ⟨65, some 'a', false, false, false, false⟩
      = (0, ⟨some testKeyboard, "အ", []⟩,
         ⟨1, some [0xE1, 0x80, 0xA1], 0, some [0xE1, 0x80, 0xA1], 1⟩) ∧
    utf8Encode "အ" = [0xE1, 0x80, 0xA1] :=
  ⟨rfl, rfl⟩

/-- C4 counterexample: calling load-keyboard with a null engine handle returns
-2, not -1 — the claim's status code -1 is refuted at this concrete call,
matching the assertion of test_invalid_parameters in test_ffi.py. -/
theorem load_null_handle_not_minus_one :
    (keymagic_engine_load_keyboard (fun _ => Option.none) Option.none
        (some "test.km2")).fst = -2 ∧
      ¬(keymagic_engine_load_keyboard (fun _ => Option.none) Option.none
          (some "test.km2")).fst = -1 :=
  ⟨rfl, by decide⟩

/-- C4 amended: calling load-keyboard with a null engine handle returns -2,
the same invalid-argument code used for a null required pointer, for every
filesystem and path argument. -/
theorem load_null_handle_returns_minus_two
    (fs : String → Option (List KmRule)) (path : Option String) :
    keymagic_engine_load_keyboard fs Option.none path = (-2, Option.none) :=
  rfl

/-- Witness for the amended C4: the null-handle call at a concrete filesystem
and path. -/
theorem load_null_handle_returns_minus_two_witness :
    keymagic_engine_load_keyboard (fun _ => some testKeyboard) Option.none
        (some "test.km2") = (-2, Option.none) :=
  load_null_handle_returns_minus_two (fun _ => some testKeyboard)
    (some "test.km2")

/-- C7: calling load-keyboard on a valid handle with a null path returns the
integer status -2 (invalid argument, required pointer null) and leaves the
state unchanged — a status code, not a fault unwinding across the boundary. -/
theorem load_null_path_returns_minus_two
    (fs : String → Option (List KmRule)) (st : EngineState) :
    keymagic_engine_load_keyboard fs (some st) Option.none = (-2, some st) :=
  rfl

/-- Witness for C7: the null-path call on a concrete valid handle. -/
theorem load_null_path_returns_minus_two_witness :
    keymagic_engine_load_keyboard (fun _ => some testKeyboard)
        (some ⟨Option.none, "", []⟩) Option.none
      = (-2, some ⟨Option.none, "", []⟩) :=
  load_null_path_returns_minus_two (fun _ => some testKeyboard)
    ⟨Option.none, "", []⟩
